import Mathlib

/-!
Verification development for the qubes-core-admin-client snapshot,
file qubesmgmt/app.py: the local/remote RPC transports
(QubesLocal._do_qubesd_call, QubesRemote._do_qubesd_call) and the
VM-collection cache (VMCollection.refresh_cache, __contains__,
__getitem__, keys).

Python byte strings are modelled as lists of byte values (List Nat),
Python text strings as Lean String.  Python dictionaries are modelled
as insertion-ordered association lists.  The distinction between bytes
keys and str keys is kept explicitly, because in Python 3 a bytes
object never compares equal to a str object, which matters for the
cache built from raw response bytes.
-/

namespace QubesMgmt

/-- Byte strings (Python bytes) as lists of byte values. -/
abbrev Bytes := List Nat

/-- Byte values of a Lean string; equals the Python ascii (or utf-8)
encoding whenever every character is ASCII. -/
def strBytes (s : String) : Bytes :=
  s.data.map Char.toNat

/-- A Python dictionary key as it occurs in this code: either a byte
string (parsed from the raw daemon response) or a text string literal.
The two constructors never compare equal, matching Python 3 semantics
where a bytes object is never equal to a str object. -/
inductive PyKey where
  | bytes (b : Bytes)
  | str (s : String)
deriving DecidableEq, Repr

/-- Discriminates the bytes constructor of PyKey. -/
def keyIsBytes : PyKey → Bool
  | PyKey.bytes _ => true
  | PyKey.str _ => false

/-- The Python exceptions that the modelled code can raise. -/
inductive PyErr where
  | keyError (key : PyKey)
  | valueError
  | typeError
  | attributeError
  | unicodeEncodeError
  | ioError (msg : String)
  | serviceCallError (stderrData : Bytes)
deriving DecidableEq, Repr

/-- Python s.encode with the ascii codec: succeeds iff every character
is below code point 128, returning the code points as bytes; otherwise
raises UnicodeEncodeError (modelled as none). -/
def pyEncodeAscii (s : String) : Option Bytes :=
  if s.data.all (fun ch => ch.toNat < 128) then some (strBytes s) else none

/-- Python b.split(sep, 1) restricted to a single-byte separator, in
the shape the source uses it: the source immediately unpacks the
result into two variables, which raises ValueError when the separator
does not occur.  Returns the parts before and after the first
occurrence of the separator, or none when the separator is absent. -/
def pySplitOnce (sep : Nat) : Bytes → Option (Bytes × Bytes)
  | [] => none
  | c :: rest =>
    if c = sep then some ([], rest)
    else
      match pySplitOnce sep rest with
      | some pq => some (c :: pq.1, pq.2)
      | none => none

/-- Python b.splitlines() for LF-separated data (the only line
terminator occurring in the qubesd protocol): splits on byte 10 and,
when the data ends with a terminator, drops the resulting trailing
empty segment; the empty byte string yields no lines. -/
def pySplitlines (b : Bytes) : List Bytes :=
  if b = [] then []
  else if b.getLast? = some 10 then (b.splitOn 10).dropLast
  else b.splitOn 10

/-- Lookup in a Python dict modelled as an association list: the value
at the first entry whose key equals the query key. -/
def dictLookup {α : Type} (d : List (PyKey × α)) (k : PyKey) : Option α :=
  (d.find? (fun p => decide (p.1 = k))).map (fun p => p.2)

/-- Python key-in-dict membership test. -/
def dictContains {α : Type} (d : List (PyKey × α)) (k : PyKey) : Bool :=
  (dictLookup d k).isSome

/-- Keys of a Python dict, in insertion order. -/
def dictKeys {α : Type} (d : List (PyKey × α)) : List PyKey :=
  d.map (fun p => p.1)

/-- Python dict item assignment d[k] = v: overwrites in place when the
key is present, otherwise appends a new entry. -/
def dictInsert {α : Type} (d : List (PyKey × α)) (k : PyKey) (v : α) :
    List (PyKey × α) :=
  if d.any (fun p => decide (p.1 = k)) then
    d.map (fun p => if p.1 = k then (k, v) else p)
  else d ++ [(k, v)]

/-- Python dict(pairs): successive item assignment starting from the
empty dict. -/
def dictOfList {α : Type} (l : List (PyKey × α)) : List (PyKey × α) :=
  l.foldl (fun d p => dictInsert d p.1 p.2) []

/-- Effectful map over a list in the option monad, modelling a Python
loop whose body may raise: the whole loop yields a value only when
every iteration does. -/
def optList {α β : Type} (f : α → Option β) : List α → Option (List β)
  | [] => some []
  | x :: xs =>
    match f x, optList f xs with
    | some y, some ys => some (y :: ys)
    | _, _ => none

/-- Property dictionary of one VM, keyed by the byte strings to the
left of the equals signs. -/
abbrev PropDict := List (PyKey × Bytes)

/-- The VM-list cache map: VM name (as parsed, a byte string) to its
property dictionary. -/
abbrev VMDict := List (PyKey × PropDict)

/-- One key=value property token: vm_prop.split(b'=', 1) unpacked into
a dict pair; a token without an equals sign makes dict() raise
ValueError, modelled as none. -/
def parseProp (p : Bytes) : Option (PyKey × Bytes) :=
  (pySplitOnce 61 p).map (fun kv => (PyKey.bytes kv.1, kv.2))

/-- One line of the VM-list response, as the refresh_cache loop body
parses it: vm_name, props = vm_data.split(b' ', 1), then
props.split(b' ') and dict of the key=value tokens.  None models the
ValueError raised on a line without a space or a token without an
equals sign. -/
def parseVMLine (line : Bytes) : Option (PyKey × PropDict) :=
  match pySplitOnce 32 line with
  | none => none
  | some nr =>
    match optList parseProp (nr.2.splitOn 32) with
    | none => none
    | some pairs => some (PyKey.bytes nr.1, dictOfList pairs)

/-- The whole refresh_cache parsing loop over
vm_list_data.splitlines(), producing the new_vm_list dict.  The source
interleaves the dict insertions with the fallible parsing, but the
partially built dict is local to the loop and discarded when a line
raises, so only the all-lines-succeed dict is observable. -/
def parseVMList (body : Bytes) : Option VMDict :=
  (optList parseVMLine (pySplitlines body)).map dictOfList

/-- State of VMCollection: the _vm_list attribute, None until the
first successful refresh. -/
structure VMCollection where
  vmList : Option VMDict
deriving DecidableEq, Repr

/-- VMCollection.refresh_cache(force).  The dispatcher call
app._do_qubesd_call('dom0', 'mgmt.vm.List') is abstracted by the
response body listResponse it would return; the middle component
counts how many dispatcher calls the operation issued.  On a parse
error the ValueError propagates and _vm_list keeps its previous
value. -/
def refreshCache (c : VMCollection) (force : Bool) (listResponse : Bytes) :
    VMCollection × Nat × Option PyErr :=
  if force = false ∧ c.vmList.isSome then (c, 0, none)
  else
    match parseVMList listResponse with
    | some d => (⟨some d⟩, 1, none)
    | none => (c, 1, some PyErr.valueError)

/-- VMCollection.__contains__: refreshes the cache (a no-op when
already populated), then tests key membership in _vm_list.  Returns
the updated collection state, the dispatcher call count, and the
membership answer or the propagated exception. -/
def pyContains (c : VMCollection) (resp : Bytes) (item : PyKey) :
    VMCollection × Nat × Except PyErr Bool :=
  match refreshCache c false resp with
  | (c2, n, some err) => (c2, n, Except.error err)
  | (c2, n, none) =>
    match c2.vmList with
    | some d => (c2, n, Except.ok (dictContains d item))
    | none => (c2, n, Except.error PyErr.typeError)

/-- The QubesVM wrapper as constructed by __getitem__; the app
back-reference is omitted, the name and the class value passed to the
constructor are kept. -/
structure QubesVM where
  name : PyKey
  klass : Bytes
deriving DecidableEq, Repr

/-- VMCollection.__getitem__: raises KeyError(item) when the
membership test fails, otherwise builds
QubesVM(app, item, _vm_list[item]['class']).  Note that the class
lookup uses the text-string key, while the property dict built by
refresh_cache is keyed by byte strings. -/
def getItem (c : VMCollection) (resp : Bytes) (item : PyKey) :
    VMCollection × Nat × Except PyErr QubesVM :=
  match pyContains c resp item with
  | (c2, n, Except.error e) => (c2, n, Except.error e)
  | (c2, n, Except.ok false) => (c2, n, Except.error (PyErr.keyError item))
  | (c2, n, Except.ok true) =>
    match c2.vmList with
    | none => (c2, n, Except.error PyErr.typeError)
    | some d =>
      match dictLookup d item with
      | none => (c2, n, Except.error (PyErr.keyError item))
      | some props =>
        match dictLookup props (PyKey.str "class") with
        | none => (c2, n, Except.error (PyErr.keyError (PyKey.str "class")))
        | some kl => (c2, n, Except.ok ⟨item, kl⟩)

/-- VMCollection.keys(): refreshes the cache, then returns the keys of
_vm_list. -/
def vmKeys (c : VMCollection) (resp : Bytes) :
    VMCollection × Nat × Except PyErr (List PyKey) :=
  match refreshCache c false resp with
  | (c2, n, some err) => (c2, n, Except.error err)
  | (c2, n, none) =>
    match c2.vmList with
    | some d => (c2, n, Except.ok (dictKeys d))
    | none => (c2, n, Except.error PyErr.typeError)

/-- Encoding of one request field by the QubesLocal send loop:
call_arg.encode('ascii').  The fourth tuple element may be None, on
which attribute access .encode raises AttributeError. -/
def encodeField : Option String → Except PyErr Bytes
  | none => Except.error PyErr.attributeError
  | some s =>
    match pyEncodeAscii s with
    | some b => Except.ok b
    | none => Except.error PyErr.unicodeEncodeError

/-- The QubesLocal send loop over the tuple of request fields: each
field is encoded and sent, immediately followed by one NUL byte.  The
second component is the byte stream written to the socket before the
loop raised (if it did); a field that fails to encode stops the loop
with nothing of that field written. -/
def sendFields : List (Option String) → Except PyErr Unit × Bytes
  | [] => (Except.ok (), [])
  | f :: rest =>
    match encodeField f with
    | Except.error e => (Except.error e, [])
    | Except.ok b =>
      match sendFields rest with
      | (r, ws) => (r, b ++ 0 :: ws)

/-- The QubesLocal receive loop iter(client_socket.recv(BUF_SIZE),
b''): concatenates the successive chunks recv yields, stopping at the
first empty chunk (which on a stream socket signals that the remote
side closed the channel). -/
def recvAll (chunks : List Bytes) : Bytes :=
  (chunks.takeWhile (fun c => !c.isEmpty)).flatten

/-- QubesLocal._do_qubesd_call(dest, method, arg, payload).  The
socket is abstracted: connectResult is the outcome of the connect call
(IOError message on failure), chunks are the data the daemon sends
back, and parse stands for self._parse_qubesd_response (not part of
this snapshot).  Returns the call outcome together with the byte
stream written to the socket. -/
def localDoCall {R : Type} (connectResult : Except String Unit)
    (dest method : String) (arg : Option String) (payload : Option Bytes)
    (chunks : List Bytes) (parse : Bytes → R) : Except PyErr R × Bytes :=
  match connectResult with
  | Except.error msg => (Except.error (PyErr.ioError msg), [])
  | Except.ok _ =>
    match sendFields [some "dom0", some method, some dest, arg] with
    | (Except.error e, ws) => (Except.error e, ws)
    | (Except.ok _, ws) =>
      (Except.ok (parse (recvAll chunks)),
       ws ++ (match payload with | some pl => pl | none => []))

/-- The observable invocation of the qrexec proxy process: its argv
and the bytes written to its standard input by communicate(payload)
(communicate with None writes nothing). -/
structure ProcInvocation where
  argv : List String
  stdinData : Bytes
deriving DecidableEq, Repr

/-- QubesRemote._do_qubesd_call(dest, method, arg, payload).  The
subprocess is abstracted by its exit code and captured output and
error streams; parse stands for self._parse_qubesd_response.  Returns
the call outcome together with how the proxy process was invoked. -/
def remoteDoCall {R : Type} (dest method : String) (arg : Option String)
    (payload : Option Bytes) (returncode : Nat)
    (stdoutData stderrData : Bytes) (parse : Bytes → R) :
    Except PyErr R × ProcInvocation :=
  let serviceName :=
    match arg with
    | none => method
    | some a => method ++ "+" ++ a
  let inv : ProcInvocation :=
    ⟨["qrexec-client-vm", dest, serviceName],
     match payload with | some pl => pl | none => []⟩
  if returncode ≠ 0 then
    (Except.error (PyErr.serviceCallError stderrData), inv)
  else
    (Except.ok (parse stdoutData), inv)

/-- Name of one response line as refresh_cache extracts it: the part
before the first space, as a bytes key.  Meaningful when the line
parses (the default pair is never reached then). -/
def lineNameKey (line : Bytes) : PyKey :=
  PyKey.bytes ((pySplitOnce 32 line).getD ([], [])).1

/-- Fields appearing on the wire are ASCII text free of the NUL
byte. -/
abbrev AsciiNoNul (s : String) : Prop :=
  ∀ ch ∈ s.data, ch.toNat < 128 ∧ ch.toNat ≠ 0

/-! Helper lemmas. -/

/-- Refreshing without force is a no-op on a populated cache: the
state is unchanged, no dispatcher call is issued, no error raised. -/
theorem refresh_populated_noop (c : VMCollection) (resp : Bytes)
    (h : c.vmList.isSome) : refreshCache c false resp = (c, 0, none) := by
  unfold refreshCache
  rw [if_pos ⟨rfl, h⟩]

/-- Ascii encoding succeeds on a string of ASCII characters and yields
its code points. -/
theorem pyEncodeAscii_of_ascii (s : String)
    (h : ∀ ch ∈ s.data, ch.toNat < 128) :
    pyEncodeAscii s = some (strBytes s) := by
  unfold pyEncodeAscii
  rw [if_pos]
  rw [List.all_eq_true]
  intro ch hch
  exact decide_eq_true (h ch hch)

/-- A string of nonzero ASCII characters encodes to bytes free of the
NUL value. -/
theorem strBytes_not_mem_zero (s : String)
    (h : ∀ ch ∈ s.data, ch.toNat ≠ 0) : 0 ∉ strBytes s := by
  intro hmem
  rcases List.mem_map.mp hmem with ⟨ch, hch, hz⟩
  exact h ch hch hz

/-- When every chunk the daemon sends before closing is nonempty (as
recv on a stream socket guarantees), the receive loop concatenates all
of them. -/
theorem recvAll_eq_flatten (chunks : List Bytes)
    (h : ∀ c ∈ chunks, c ≠ []) : recvAll chunks = chunks.flatten := by
  unfold recvAll
  congr 1
  rw [List.takeWhile_eq_self_iff]
  intro c hc
  simp [List.isEmpty_iff, h c hc]

/-- The send loop over four present all-ASCII fields succeeds and
writes each field followed by one NUL byte, in order. -/
theorem sendFields_all_ascii (m d a : String)
    (hm : ∀ ch ∈ m.data, ch.toNat < 128)
    (hd : ∀ ch ∈ d.data, ch.toNat < 128)
    (ha : ∀ ch ∈ a.data, ch.toNat < 128) :
    sendFields [some "dom0", some m, some d, some a]
      = (Except.ok (),
         strBytes "dom0" ++ 0 :: strBytes m ++ 0 :: strBytes d ++ 0 ::
           strBytes a ++ 0 :: []) := by
  simp [sendFields, encodeField,
    pyEncodeAscii_of_ascii "dom0" (by decide),
    pyEncodeAscii_of_ascii m hm, pyEncodeAscii_of_ascii d hd,
    pyEncodeAscii_of_ascii a ha]

/-- The membership condition tested by item assignment agrees with
key-list membership. -/
theorem any_key_eq {α : Type} (d : List (PyKey × α)) (k : PyKey) :
    (d.any (fun p => decide (p.1 = k)) = true) ↔ k ∈ dictKeys d := by
  unfold dictKeys
  rw [List.any_eq_true]
  constructor
  · rintro ⟨p, hp, hdec⟩
    exact List.mem_map.mpr ⟨p, hp, of_decide_eq_true hdec⟩
  · intro hk
    rcases List.mem_map.mp hk with ⟨p, hp, hpk⟩
    exact ⟨p, hp, decide_eq_true hpk⟩

/-- Item assignment appends an absent key and leaves the key list
unchanged for a present key. -/
theorem dictKeys_insert {α : Type} (d : List (PyKey × α)) (k : PyKey)
    (v : α) :
    dictKeys (dictInsert d k v)
      = if k ∈ dictKeys d then dictKeys d else dictKeys d ++ [k] := by
  unfold dictInsert
  by_cases hk : k ∈ dictKeys d
  · rw [if_pos ((any_key_eq d k).mpr hk), if_pos hk]
    unfold dictKeys
    rw [List.map_map]
    apply List.map_congr_left
    intro p _
    by_cases hp : p.1 = k
    · simp [Function.comp, hp]
    · simp [Function.comp, hp]
  · rw [if_neg (fun h => hk ((any_key_eq d k).mp h)), if_neg hk]
    unfold dictKeys
    rw [List.map_append]
    rfl

/-- Every key of a dict built by folding item assignments satisfies
any property satisfied by the starting keys and the inserted keys. -/
theorem keysP_foldl {α : Type} (P : PyKey → Prop) :
    ∀ (l : List (PyKey × α)) (d : List (PyKey × α)),
      (∀ p ∈ l, P p.1) → (∀ k ∈ dictKeys d, P k) →
      ∀ k ∈ dictKeys (l.foldl (fun d2 p => dictInsert d2 p.1 p.2) d), P k
  | [], _, _, hd => hd
  | p :: rest, d, hl, hd => by
    rw [List.foldl_cons]
    apply keysP_foldl P rest (dictInsert d p.1 p.2)
    · exact fun q hq => hl q (List.mem_cons_of_mem p hq)
    · intro k hk
      rw [dictKeys_insert] at hk
      by_cases hmem : p.1 ∈ dictKeys d
      · rw [if_pos hmem] at hk
        exact hd k hk
      · rw [if_neg hmem] at hk
        rcases List.mem_append.mp hk with h | h
        · exact hd k h
        · rw [List.mem_singleton] at h
          rw [h]
          exact hl p (List.mem_cons_self p rest)

/-- Every key of dict(pairs) satisfies any property satisfied by the
keys of the pairs. -/
theorem dictOfList_keysP {α : Type} (P : PyKey → Prop)
    (l : List (PyKey × α)) (hl : ∀ p ∈ l, P p.1) :
    ∀ k ∈ dictKeys (dictOfList l), P k :=
  keysP_foldl P l [] hl (fun k hk => absurd hk (List.not_mem_nil k))

/-- An entry of a dict after an item assignment is an original entry
or the assigned pair. -/
theorem mem_dictInsert {α : Type} (e : PyKey × α) (d : List (PyKey × α))
    (k : PyKey) (v : α) (h : e ∈ dictInsert d k v) : e ∈ d ∨ e = (k, v) := by
  unfold dictInsert at h
  by_cases hc : (d.any (fun p => decide (p.1 = k))) = true
  · rw [if_pos hc] at h
    rcases List.mem_map.mp h with ⟨p, hp, hpe⟩
    by_cases hpk : p.1 = k
    · rw [if_pos hpk] at hpe
      right
      exact hpe.symm
    · rw [if_neg hpk] at hpe
      left
      exact hpe ▸ hp
  · rw [if_neg hc] at h
    rcases List.mem_append.mp h with h2 | h2
    · exact Or.inl h2
    · exact Or.inr (List.mem_singleton.mp h2)

/-- An entry of a dict built by folding item assignments is a starting
entry or one of the assigned pairs. -/
theorem mem_foldl_ins {α : Type} :
    ∀ (l d : List (PyKey × α)) (e : PyKey × α),
      e ∈ l.foldl (fun d2 p => dictInsert d2 p.1 p.2) d → e ∈ d ∨ e ∈ l
  | [], _, _, h => Or.inl h
  | p :: rest, d, e, h => by
    rw [List.foldl_cons] at h
    rcases mem_foldl_ins rest (dictInsert d p.1 p.2) e h with h2 | h2
    · rcases mem_dictInsert e d p.1 p.2 h2 with h3 | h3
      · exact Or.inl h3
      · right
        rw [h3]
        exact List.mem_cons_self p rest
    · exact Or.inr (List.mem_cons_of_mem p h2)

/-- An entry of dict(pairs) is one of the pairs. -/
theorem mem_dictOfList {α : Type} (l : List (PyKey × α)) (e : PyKey × α)
    (h : e ∈ dictOfList l) : e ∈ l := by
  rcases mem_foldl_ins l [] e h with h2 | h2
  · exact absurd h2 (List.not_mem_nil e)
  · exact h2

/-- Lookup with a text-string key in a dict all of whose keys are byte
strings finds nothing. -/
theorem dictLookup_str_none {α : Type} (d : List (PyKey × α))
    (hk : ∀ k ∈ dictKeys d, keyIsBytes k = true) (s : String) :
    dictLookup d (PyKey.str s) = none := by
  unfold dictLookup
  have hfind : d.find? (fun p => decide (p.1 = PyKey.str s)) = none := by
    rw [List.find?_eq_none]
    intro p hp
    simp only [decide_eq_true_eq]
    intro heq
    have hb := hk p.1 (List.mem_map.mpr ⟨p, hp, rfl⟩)
    rw [heq] at hb
    exact Bool.noConfusion hb
  rw [hfind]
  rfl

/-- A successful dict lookup exhibits a matching entry of the dict. -/
theorem dictLookup_mem {α : Type} (d : List (PyKey × α)) (k : PyKey)
    (v : α) (h : dictLookup d k = some v) : (k, v) ∈ d := by
  unfold dictLookup at h
  obtain ⟨p, hfind, hv⟩ := Option.map_eq_some'.mp h
  have hp1 : p.1 = k := by
    have := List.find?_some hfind
    simpa using this
  have hpd : p ∈ d := List.mem_of_find?_eq_some hfind
  have hpe : p = (k, v) := by
    cases p with
    | mk a b =>
      simp only at hp1 hv
      rw [hp1] at hpd ⊢
      rw [hv]
  exact hpe ▸ hpd

/-- The loop over a list in the option monad, when it succeeds,
relates inputs to outputs pointwise. -/
theorem optList_forall2 {α β : Type} (f : α → Option β) :
    ∀ (l : List α) (ys : List β), optList f l = some ys →
      List.Forall₂ (fun x y => f x = some y) l ys
  | [], ys, h => by
    unfold optList at h
    cases h
    exact List.Forall₂.nil
  | x :: xs, ys, h => by
    unfold optList at h
    cases hfx : f x with
    | none => rw [hfx] at h; exact absurd h (by simp)
    | some y =>
      rw [hfx] at h
      cases hrest : optList f xs with
      | none => rw [hrest] at h; exact absurd h (by simp)
      | some ys2 =>
        rw [hrest] at h
        cases h
        exact List.Forall₂.cons hfx (optList_forall2 f xs ys2 hrest)

/-- From a pointwise relation between inputs and outputs, a projection
of the outputs is a map of the inputs. -/
theorem forall2_map {α β γ : Type} {P : α → β → Prop} {g : β → γ}
    {h : α → γ} (hpt : ∀ x y, P x y → g y = h x) :
    ∀ {l : List α} {ys : List β}, List.Forall₂ P l ys →
      ys.map g = l.map h := by
  intro l ys hf
  induction hf with
  | nil => rfl
  | cons hxy _ ih => simp only [List.map_cons, ih, hpt _ _ hxy]

/-- Every output of a successful option-monad loop comes from some
input. -/
theorem forall2_mem_right {α β : Type} {P : α → β → Prop} :
    ∀ {l : List α} {ys : List β}, List.Forall₂ P l ys →
      ∀ y ∈ ys, ∃ x ∈ l, P x y := by
  intro l ys hf
  induction hf with
  | nil => intro y hy; exact absurd hy (List.not_mem_nil y)
  | cons hxy _ ih =>
    intro y hy
    rcases List.mem_cons.mp hy with h | h
    · exact ⟨_, List.mem_cons_self _ _, h ▸ hxy⟩
    · rcases ih y h with ⟨x, hx, hpx⟩
      exact ⟨x, List.mem_cons_of_mem _ hx, hpx⟩

/-- A parsed line's dict key is the byte-string name before the first
space of the line. -/
theorem parseVMLine_fst (line : Bytes) (e : PyKey × PropDict)
    (h : parseVMLine line = some e) : e.1 = lineNameKey line := by
  unfold parseVMLine at h
  cases hsp : pySplitOnce 32 line with
  | none => rw [hsp] at h; exact absurd h (by simp)
  | some nr =>
    rw [hsp] at h
    dsimp only at h
    cases hopt : optList parseProp (nr.2.splitOn 32) with
    | none => rw [hopt] at h; exact absurd h (by simp)
    | some pairs =>
      rw [hopt] at h
      cases h
      unfold lineNameKey
      rw [hsp]
      rfl

/-- A parsed property token is keyed by a byte string. -/
theorem parseProp_fst (p : Bytes) (q : PyKey × Bytes)
    (h : parseProp p = some q) : keyIsBytes q.1 = true := by
  unfold parseProp at h
  cases hsp : pySplitOnce 61 p with
  | none => rw [hsp] at h; exact absurd h (by simp)
  | some kv =>
    rw [hsp] at h
    cases h
    rfl

/-- A parsed line yields a byte-string name and a property dict all of
whose keys are byte strings. -/
theorem parseVMLine_entry (line : Bytes) (e : PyKey × PropDict)
    (h : parseVMLine line = some e) :
    keyIsBytes e.1 = true ∧ ∀ pk ∈ dictKeys e.2, keyIsBytes pk = true := by
  unfold parseVMLine at h
  cases hsp : pySplitOnce 32 line with
  | none => rw [hsp] at h; exact absurd h (by simp)
  | some nr =>
    rw [hsp] at h
    dsimp only at h
    cases hopt : optList parseProp (nr.2.splitOn 32) with
    | none => rw [hopt] at h; exact absurd h (by simp)
    | some pairs =>
      rw [hopt] at h
      cases h
      refine ⟨rfl, ?_⟩
      apply dictOfList_keysP (fun k => keyIsBytes k = true) pairs
      intro q hq
      rcases forall2_mem_right (optList_forall2 parseProp _ _ hopt) q hq
        with ⟨tok, _, htok⟩
      exact parseProp_fst tok q htok

/-- Keys of a dict built by folding item assignments of pairwise
distinct keys: the starting keys followed by the assigned keys. -/
theorem dictKeys_foldl_nodup {α : Type} :
    ∀ (l d : List (PyKey × α)),
      (dictKeys d ++ l.map (fun p => p.1)).Nodup →
      dictKeys (l.foldl (fun d2 p => dictInsert d2 p.1 p.2) d)
        = dictKeys d ++ l.map (fun p => p.1)
  | [], d, _ => by simp
  | p :: rest, d, h => by
    have hknotin : p.1 ∉ dictKeys d := by
      intro hmem
      exact (List.nodup_append.mp h).2.2 hmem (by simp)
    have hins : dictKeys (dictInsert d p.1 p.2) = dictKeys d ++ [p.1] := by
      rw [dictKeys_insert, if_neg hknotin]
    rw [List.foldl_cons,
      dictKeys_foldl_nodup rest (dictInsert d p.1 p.2)
        (by rw [hins]; simpa [List.append_assoc] using h),
      hins, List.append_assoc]
    rfl

/-- Keys of dict(pairs) for pairwise distinct keys: exactly the keys
of the pairs, in order. -/
theorem dictOfList_keys_nodup {α : Type} (l : List (PyKey × α))
    (h : (l.map (fun p => p.1)).Nodup) :
    dictKeys (dictOfList l) = l.map (fun p => p.1) := by
  have h2 := dictKeys_foldl_nodup l ([] : List (PyKey × α))
    (by simpa [dictKeys] using h)
  simpa [dictOfList, dictKeys] using h2

/-! Claim theorems. -/

/-- C1: the claim states that for every Local call, also with the
optional argument absent (the default) or empty, the argument field
and its NUL terminator are written and the call proceeds to read a
response, in particular for the cache entity-list call which passes no
argument.  The code instead raises AttributeError on the absent
argument: the field tuple then contains None and None.encode fails, so
only the first three fields and their NUL bytes reach the socket and
no response is read; this is exactly the call refresh_cache makes.
With the empty string argument the encoding does complete with all
four NUL terminators, confirming the claim only for that case. -/
theorem c1_entity_list_call_crashes_on_absent_argument :
    localDoCall (Except.ok ()) "dom0" "mgmt.vm.List" none none []
        (fun b => b)
      = (Except.error PyErr.attributeError,
         strBytes "dom0" ++ 0 :: strBytes "mgmt.vm.List" ++ 0 ::
           strBytes "dom0" ++ [0])
  ∧ localDoCall (Except.ok ()) "dom0" "mgmt.vm.List" (some "") none []
        (fun b => b)
      = (Except.ok [],
         strBytes "dom0" ++ 0 :: strBytes "mgmt.vm.List" ++ 0 ::
           strBytes "dom0" ++ 0 :: [0]) :=
  ⟨rfl, rfl⟩

/-- C9: when the connect step fails, the Local call re-raises the
failure immediately: the IOError message is surfaced unchanged, no
bytes are written to the channel, and no further connect is modelled
or attempted (the result is fixed by the single connect outcome). -/
theorem c9_local_connect_failure_surfaced_without_retry {R : Type}
    (parse : Bytes → R) (msg dest method : String) (arg : Option String)
    (payload : Option Bytes) (chunks : List Bytes) :
    localDoCall (Except.error msg) dest method arg payload chunks parse
      = (Except.error (PyErr.ioError msg), []) :=
  rfl

/-- C7: the Remote call invokes the proxy with argv
qrexec-client-vm, destination, service name, where the service name is
the method alone when the argument is absent and method plus separator
plus argument when present; the payload, or nothing when absent, is
written to the process input stream. -/
theorem c7_remote_service_name_and_stdin {R : Type} (parse : Bytes → R)
    (dest method a : String) (payload : Option Bytes) (rc : Nat)
    (outData errData : Bytes) :
    (remoteDoCall dest method none payload rc outData errData parse).2
      = ⟨["qrexec-client-vm", dest, method],
         match payload with | some pl => pl | none => []⟩
  ∧ (remoteDoCall dest method (some a) payload rc outData errData
        parse).2
      = ⟨["qrexec-client-vm", dest, method ++ "+" ++ a],
         match payload with | some pl => pl | none => []⟩ := by
  constructor <;> (unfold remoteDoCall; dsimp only; split <;> rfl)

/-- C6: a Remote call whose proxy process exits nonzero raises the
service-call error carrying the captured error-stream bytes, whatever
the output stream held; the output stream reaches the response decoder
exactly when the exit code is zero. -/
theorem c6_remote_nonzero_exit_raises_stderr {R : Type}
    (parse : Bytes → R) (dest method : String) (arg : Option String)
    (payload : Option Bytes) (rc : Nat) (outData errData : Bytes) :
    (rc ≠ 0 →
      (remoteDoCall dest method arg payload rc outData errData parse).1
        = Except.error (PyErr.serviceCallError errData))
  ∧ (rc = 0 →
      (remoteDoCall dest method arg payload rc outData errData parse).1
        = Except.ok (parse outData)) := by
  unfold remoteDoCall
  constructor <;> intro h <;> simp [h]

/-- C6 witness: the spec scenario of a proxy stub exiting with code 1
and the error text permission denied, with junk on its output stream;
and the zero-exit case decoding the output stream. -/
theorem c6_remote_nonzero_exit_raises_stderr_witness :
    (remoteDoCall "dom0" "mgmt.vm.List" none none 1 [55]
        (strBytes "permission denied") (fun b => b)).1
      = Except.error (PyErr.serviceCallError (strBytes "permission denied"))
  ∧ (remoteDoCall "dom0" "mgmt.vm.List" none none 0 [55]
        (strBytes "permission denied") (fun b => b)).1
      = Except.ok [55] :=
  ⟨(c6_remote_nonzero_exit_raises_stderr (fun b => b) "dom0" "mgmt.vm.List"
      none none 1 [55] (strBytes "permission denied")).1 (by decide),
   (c6_remote_nonzero_exit_raises_stderr (fun b => b) "dom0" "mgmt.vm.List"
      none none 0 [55] (strBytes "permission denied")).2 rfl⟩

/-- C8: the new cache map is built completely before being installed,
so whenever parsing the entity-list response fails, the previous
_vm_list value, populated or not, is left exactly as it was. -/
theorem c8_refresh_parse_failure_leaves_cache (c : VMCollection)
    (force : Bool) (resp : Bytes) (h : parseVMList resp = none) :
    (refreshCache c force resp).1 = c := by
  unfold refreshCache
  split
  · rfl
  · rw [h]

/-- C8 witness: refreshing an intact one-entry cache with a response
whose line has no space separator fails to parse and leaves the cache
unchanged. -/
theorem c8_refresh_parse_failure_leaves_cache_witness :
    parseVMList (strBytes "badline") = none
  ∧ (refreshCache
        ⟨some [(PyKey.bytes (strBytes "vmA"),
                [(PyKey.bytes (strBytes "class"), strBytes "AppVM")])]⟩
        true (strBytes "badline")).1
      = ⟨some [(PyKey.bytes (strBytes "vmA"),
                [(PyKey.bytes (strBytes "class"), strBytes "AppVM")])]⟩ :=
  ⟨rfl,
   c8_refresh_parse_failure_leaves_cache
     ⟨some [(PyKey.bytes (strBytes "vmA"),
             [(PyKey.bytes (strBytes "class"), strBytes "AppVM")])]⟩
     true (strBytes "badline") rfl⟩

/-- C2: whenever the write phase of a Local call succeeds, the call
reads chunks from the channel until the remote side closes it (the
first empty recv result), concatenates everything received, and
returns the response decoder applied to exactly that full byte
sequence; the hypothesis that every chunk sent before closure is
nonempty is what recv on a stream socket guarantees. -/
theorem c2_local_reads_until_close_then_decodes {R : Type}
    (parse : Bytes → R) (dest method : String) (arg : Option String)
    (payload : Option Bytes) (chunks : List Bytes)
    (hsend : (sendFields [some "dom0", some method, some dest, arg]).1
      = Except.ok ())
    (hchunks : ∀ c ∈ chunks, c ≠ []) :
    (localDoCall (Except.ok ()) dest method arg payload chunks parse).1
      = Except.ok (parse chunks.flatten) := by
  unfold localDoCall
  rcases hsf : sendFields [some "dom0", some method, some dest, arg]
    with ⟨r, ws⟩
  rw [hsf] at hsend
  dsimp only at hsend
  subst hsend
  dsimp only
  rw [recvAll_eq_flatten chunks hchunks]

/-- C2 witness: a concrete Local call whose response arrives in two
nonempty chunks; the decoder receives their full concatenation. -/
theorem c2_local_reads_until_close_then_decodes_witness :
    (sendFields [some "dom0", some "mgmt.vm.List", some "dom0", some ""]).1
      = Except.ok ()
  ∧ (∀ c ∈ [[48, 0], [65]], c ≠ ([] : Bytes))
  ∧ (localDoCall (Except.ok ()) "dom0" "mgmt.vm.List" (some "") none
        [[48, 0], [65]] (fun b => b)).1
      = Except.ok [48, 0, 65] :=
  ⟨rfl, by decide,
   c2_local_reads_until_close_then_decodes (fun b => b) "dom0"
     "mgmt.vm.List" (some "") none [[48, 0], [65]] rfl (by decide)⟩

/-- C3: the spec scenario.  After refreshing from the response body
with the two lines vm1 and vm2 the cache does hold exactly two
entities and lookup of the absent name vm3 does raise KeyError, but
the claim that lookup of a present name succeeds and returns a wrapper
carrying the class property fails on the code: the cache and its
property dicts are keyed by byte strings, membership with the text
name vm1 is false, and even lookup with the byte-string name vm1
raises KeyError for the text key class, because __getitem__ indexes
the byte-keyed property dict with the text literal class.  The first
conjunct fixes the refreshed cache, the rest evaluate the operations
on it. -/
theorem c3_scenario_present_name_lookup_raises :
    refreshCache ⟨none⟩ false
        (strBytes
          "vm1 class=AppVM state=running\nvm2 class=TemplateVM state=halted\n")
      = (⟨(parseVMList (strBytes
            "vm1 class=AppVM state=running\nvm2 class=TemplateVM state=halted\n"))⟩,
         1, none)
  ∧ dictKeys ((parseVMList (strBytes
        "vm1 class=AppVM state=running\nvm2 class=TemplateVM state=halted\n")).getD [])
      = [PyKey.bytes (strBytes "vm1"), PyKey.bytes (strBytes "vm2")]
  ∧ (pyContains
        ⟨(parseVMList (strBytes
          "vm1 class=AppVM state=running\nvm2 class=TemplateVM state=halted\n"))⟩
        [] (PyKey.bytes (strBytes "vm1"))).2.2
      = Except.ok true
  ∧ (getItem
        ⟨(parseVMList (strBytes
          "vm1 class=AppVM state=running\nvm2 class=TemplateVM state=halted\n"))⟩
        [] (PyKey.str "vm3")).2.2
      = Except.error (PyErr.keyError (PyKey.str "vm3"))
  ∧ (getItem
        ⟨(parseVMList (strBytes
          "vm1 class=AppVM state=running\nvm2 class=TemplateVM state=halted\n"))⟩
        [] (PyKey.bytes (strBytes "vm1"))).2.2
      = Except.error (PyErr.keyError (PyKey.str "class"))
  ∧ (pyContains
        ⟨(parseVMList (strBytes
          "vm1 class=AppVM state=running\nvm2 class=TemplateVM state=halted\n"))⟩
        [] (PyKey.str "vm1")).2.2
      = Except.ok false :=
  ⟨rfl, rfl, rfl, rfl, rfl, rfl⟩

/-- C4: for NUL-free ASCII fields, the Local call writes the fixed
source dom0, the method, the destination and the argument, each
followed by one NUL byte, then the payload verbatim with no delimiter;
splitting the bytes written before the payload on NUL gives the four
original fields in order (plus the empty segment after the final
terminator), including when the argument is the empty string. -/
theorem c4_encode_then_split_recovers_fields {R : Type}
    (parse : Bytes → R) (method dest arg : String) (payload : Bytes)
    (chunks : List Bytes) (hm : AsciiNoNul method) (hd : AsciiNoNul dest)
    (ha : AsciiNoNul arg) :
    (localDoCall (Except.ok ()) dest method (some arg) (some payload)
        chunks parse).2
      = (strBytes "dom0" ++ 0 :: strBytes method ++ 0 :: strBytes dest ++
          0 :: strBytes arg ++ 0 :: []) ++ payload
  ∧ (strBytes "dom0" ++ 0 :: strBytes method ++ 0 :: strBytes dest ++
       0 :: strBytes arg ++ 0 :: []).splitOn 0
      = [strBytes "dom0", strBytes method, strBytes dest, strBytes arg,
         []]
  ∧ ((strBytes "dom0" ++ 0 :: strBytes method ++ 0 :: strBytes dest ++
        0 :: strBytes arg ++ 0 :: []).splitOn 0).dropLast
      = [strBytes "dom0", strBytes method, strBytes dest, strBytes arg] := by
  have hsplit :
      (strBytes "dom0" ++ 0 :: strBytes method ++ 0 :: strBytes dest ++
         0 :: strBytes arg ++ 0 :: []).splitOn 0
        = [strBytes "dom0", strBytes method, strBytes dest, strBytes arg,
           []] := by
    have hshape :
        strBytes "dom0" ++ 0 :: strBytes method ++ 0 :: strBytes dest ++
           0 :: strBytes arg ++ 0 :: []
          = [0].intercalate
              [strBytes "dom0", strBytes method, strBytes dest,
               strBytes arg, []] := by
      simp [List.intercalate, List.intersperse]
    rw [hshape]
    refine List.splitOn_intercalate _ 0 ?_ (by simp)
    intro l hl
    simp only [List.mem_cons, List.mem_singleton] at hl
    rcases hl with h | h | h | h | h | h
    · rw [h]; exact strBytes_not_mem_zero "dom0" (by decide)
    · rw [h]; exact strBytes_not_mem_zero method (fun ch hch => (hm ch hch).2)
    · rw [h]; exact strBytes_not_mem_zero dest (fun ch hch => (hd ch hch).2)
    · rw [h]; exact strBytes_not_mem_zero arg (fun ch hch => (ha ch hch).2)
    · rw [h]; exact List.not_mem_nil 0
    · exact absurd h (List.not_mem_nil l)
  refine ⟨?_, hsplit, by rw [hsplit]; rfl⟩
  unfold localDoCall
  rw [sendFields_all_ascii method dest arg
    (fun ch hch => (hm ch hch).1) (fun ch hch => (hd ch hch).1)
    (fun ch hch => (ha ch hch).1)]

/-- C4 witness: the entity-list request with the empty argument and a
one-byte payload; the wire bytes split back into the four fields. -/
theorem c4_encode_then_split_recovers_fields_witness :
    (localDoCall (Except.ok ()) "dom0" "mgmt.vm.List" (some "")
        (some [55]) [] (fun b => b)).2
      = (strBytes "dom0" ++ 0 :: strBytes "mgmt.vm.List" ++ 0 ::
          strBytes "dom0" ++ 0 :: strBytes "" ++ 0 :: []) ++ [55]
  ∧ (strBytes "dom0" ++ 0 :: strBytes "mgmt.vm.List" ++ 0 ::
       strBytes "dom0" ++ 0 :: strBytes "" ++ 0 :: []).splitOn 0
      = [strBytes "dom0", strBytes "mgmt.vm.List", strBytes "dom0",
         strBytes "", []]
  ∧ ((strBytes "dom0" ++ 0 :: strBytes "mgmt.vm.List" ++ 0 ::
        strBytes "dom0" ++ 0 :: strBytes "" ++ 0 :: []).splitOn 0).dropLast
      = [strBytes "dom0", strBytes "mgmt.vm.List", strBytes "dom0",
         strBytes ""] :=
  c4_encode_then_split_recovers_fields (fun b => b) "mgmt.vm.List" "dom0"
    "" [55] [] (by decide) (by decide) (by decide)

/-- C5: refreshing a populated cache without force issues zero
dispatcher calls and leaves the cache unchanged; refreshing with force
always issues exactly one dispatcher call, and when the response
parses (with pairwise distinct names, as for a genuine entity list)
the new cache's keys are exactly the names parsed from the response,
one per line, in order. -/
theorem c5_refresh_call_discipline (c : VMCollection) (resp : Bytes) :
    (c.vmList.isSome → refreshCache c false resp = (c, 0, none))
  ∧ (refreshCache c true resp).2.1 = 1
  ∧ (∀ d, parseVMList resp = some d →
      refreshCache c true resp = (⟨some d⟩, 1, none)
    ∧ (((pySplitlines resp).map lineNameKey).Nodup →
        dictKeys d = (pySplitlines resp).map lineNameKey
      ∧ ∀ resp2 : Bytes,
          (vmKeys ⟨some d⟩ resp2).2.2
            = Except.ok ((pySplitlines resp).map lineNameKey))) := by
  refine ⟨fun h => refresh_populated_noop c resp h, ?_, ?_⟩
  · unfold refreshCache
    rw [if_neg (by simp)]
    cases hp : parseVMList resp <;> rfl
  · intro d hd
    constructor
    · unfold refreshCache
      rw [if_neg (by simp), hd]
    · intro hnd
      unfold parseVMList at hd
      obtain ⟨entries, hopt, hdict⟩ := Option.map_eq_some'.mp hd
      have hmap : entries.map (fun p => p.1)
          = (pySplitlines resp).map lineNameKey :=
        forall2_map (fun x y h => parseVMLine_fst x y h)
          (optList_forall2 parseVMLine (pySplitlines resp) entries hopt)
      have hk : dictKeys d = (pySplitlines resp).map lineNameKey := by
        rw [← hdict, dictOfList_keys_nodup entries (by rw [hmap]; exact hnd),
          hmap]
      refine ⟨hk, ?_⟩
      intro resp2
      unfold vmKeys
      rw [refresh_populated_noop ⟨some d⟩ resp2 rfl]
      dsimp only
      rw [hk]

/-- C5 witness: a populated cache is not refreshed without force; a
forced refresh against a one-line response issues one call and keys
become that one name. -/
theorem c5_refresh_call_discipline_witness :
    refreshCache ⟨some []⟩ false (strBytes "vm1 class=AppVM\n")
      = (⟨some []⟩, 0, none)
  ∧ (refreshCache ⟨some []⟩ true (strBytes "vm1 class=AppVM\n")).2.1 = 1
  ∧ refreshCache ⟨some []⟩ true (strBytes "vm1 class=AppVM\n")
      = (⟨some ((parseVMList (strBytes "vm1 class=AppVM\n")).getD [])⟩,
         1, none)
  ∧ dictKeys ((parseVMList (strBytes "vm1 class=AppVM\n")).getD [])
      = (pySplitlines (strBytes "vm1 class=AppVM\n")).map lineNameKey
  ∧ (vmKeys ⟨some ((parseVMList (strBytes "vm1 class=AppVM\n")).getD [])⟩
        []).2.2
      = Except.ok
          ((pySplitlines (strBytes "vm1 class=AppVM\n")).map lineNameKey) :=
  have h := c5_refresh_call_discipline ⟨some []⟩
    (strBytes "vm1 class=AppVM\n")
  ⟨h.1 rfl, h.2.1, (h.2.2 _ rfl).1, ((h.2.2 _ rfl).2 (by decide)).1,
   ((h.2.2 _ rfl).2 (by decide)).2 []⟩

/-- C10: every cache map built by refresh keys entities by byte
strings and keys each property dict by byte strings; consequently
membership tests and lookups with text-string names never match a
cached entry (the membership answer is false and the lookup raises
KeyError for that name), and a name lookup whose membership test
succeeds still indexes the property dict with the text key class, so
it raises KeyError for that text key. -/
theorem c10_cache_maps_keyed_by_bytes (body : Bytes) (d : VMDict)
    (hparse : parseVMList body = some d) :
    (∀ k ∈ dictKeys d, keyIsBytes k = true)
  ∧ (∀ e ∈ d, ∀ pk ∈ dictKeys e.2, keyIsBytes pk = true)
  ∧ (∀ (s : String) (resp : Bytes),
      (pyContains ⟨some d⟩ resp (PyKey.str s)).2.2 = Except.ok false
    ∧ (getItem ⟨some d⟩ resp (PyKey.str s)).2.2
        = Except.error (PyErr.keyError (PyKey.str s)))
  ∧ (∀ (resp : Bytes) (item : PyKey),
      (pyContains ⟨some d⟩ resp item).2.2 = Except.ok true →
      (getItem ⟨some d⟩ resp item).2.2
        = Except.error (PyErr.keyError (PyKey.str "class"))) := by
  unfold parseVMList at hparse
  obtain ⟨entries, hopt, hdict⟩ := Option.map_eq_some'.mp hparse
  have hentry : ∀ e ∈ entries,
      keyIsBytes e.1 = true ∧ ∀ pk ∈ dictKeys e.2, keyIsBytes pk = true := by
    intro e he
    rcases forall2_mem_right
      (optList_forall2 parseVMLine (pySplitlines body) entries hopt) e he
      with ⟨line, _, hline⟩
    exact parseVMLine_entry line e hline
  have hkeys : ∀ k ∈ dictKeys d, keyIsBytes k = true := by
    rw [← hdict]
    exact dictOfList_keysP (fun k => keyIsBytes k = true) entries
      (fun p hp => (hentry p hp).1)
  have hprops : ∀ e ∈ d, ∀ pk ∈ dictKeys e.2, keyIsBytes pk = true := by
    intro e he
    rw [← hdict] at he
    exact (hentry e (mem_dictOfList entries e he)).2
  have hre : ∀ resp : Bytes,
      refreshCache ⟨some d⟩ false resp = (⟨some d⟩, 0, none) :=
    fun resp => refresh_populated_noop ⟨some d⟩ resp rfl
  have hpc : ∀ (resp : Bytes) (item : PyKey),
      pyContains ⟨some d⟩ resp item
        = (⟨some d⟩, 0, Except.ok (dictContains d item)) := by
    intro resp item
    unfold pyContains
    rw [hre resp]
  refine ⟨hkeys, hprops, ?_, ?_⟩
  · intro s resp
    have hnone : dictLookup d (PyKey.str s) = none :=
      dictLookup_str_none d hkeys s
    have hcontains : dictContains d (PyKey.str s) = false := by
      unfold dictContains
      rw [hnone]
      rfl
    constructor
    · rw [hpc resp (PyKey.str s), hcontains]
    · unfold getItem
      rw [hpc resp (PyKey.str s), hcontains]
  · intro resp item hmem
    rw [hpc resp item] at hmem
    dsimp only at hmem
    have hcontains : dictContains d item = true := by
      cases hc : dictContains d item
      · rw [hc] at hmem
        exact absurd hmem (by simp)
      · rfl
    obtain ⟨props, hlk⟩ :=
      Option.isSome_iff_exists.mp (by unfold dictContains at hcontains; exact hcontains)
    have hcls : dictLookup props (PyKey.str "class") = none :=
      dictLookup_str_none props
        (hprops (item, props) (dictLookup_mem d item props hlk)) "class"
    unfold getItem
    rw [hpc resp item, hcontains]
    dsimp only
    rw [hlk]
    dsimp only
    rw [hcls]

/-- C10 witness: on the cache parsed from a one-line response, the
text name vm0 does not match while the byte name does, and the
byte-name lookup raises KeyError for the text key class. -/
theorem c10_cache_maps_keyed_by_bytes_witness :
    (pyContains ⟨some ((parseVMList (strBytes "vm0 class=AppVM\n")).getD [])⟩
        [] (PyKey.str "vm0")).2.2
      = Except.ok false
  ∧ (getItem ⟨some ((parseVMList (strBytes "vm0 class=AppVM\n")).getD [])⟩
        [] (PyKey.bytes (strBytes "vm0"))).2.2
      = Except.error (PyErr.keyError (PyKey.str "class")) :=
  have h := c10_cache_maps_keyed_by_bytes (strBytes "vm0 class=AppVM\n")
    ((parseVMList (strBytes "vm0 class=AppVM\n")).getD []) rfl
  ⟨(h.2.2.1 "vm0" []).1, h.2.2.2 [] (PyKey.bytes (strBytes "vm0")) rfl⟩

end QubesMgmt
